import Mathlib

/-! Aligned allocation shim of lame_platform.h.

A shallow embedding of `src/lame/include/lame_platform.h`.

* `size_t` is a natural number below `2 ^ w`; every `size_t` operation of the
  source is reduced modulo `2 ^ w` explicitly (`size_add`, `size_sub`,
  `size_mul`).
* `LAME_PAGE_ALIGNMENT` is a build-time constant (default 16384, overridable
  with `-DLAME_PAGE_ALIGNMENT=...`); the functions take the value it expands to
  as the argument `A`.
* `posix_memalign` is an abstract primitive (`Libc.posix_memalign`) acting on an
  abstract allocator state; `memset` is the usual byte fill on a byte memory.
* Every call of a libc primitive is appended to `State.trace`, so that the
  arguments of the calls made by the shim can be stated.
-/

namespace LamePlatform

/-! ## Data model -/

/-- Pointers are addresses; the null pointer is address 0. -/
abbrev Ptr := Nat

/-- The null pointer. -/
def NULL : Ptr := 0

/-- Largest value of a `w`-bit `size_t`. -/
def SIZE_MAX (w : Nat) : Nat := 2 ^ w - 1

/-- Addition of two `size_t` values (wraps modulo `2 ^ w`). -/
def size_add (w a b : Nat) : Nat := (a + b) % 2 ^ w

/-- Subtraction of two `size_t` values (wraps modulo `2 ^ w`). -/
def size_sub (w a b : Nat) : Nat := (a % 2 ^ w + (2 ^ w - b % 2 ^ w)) % 2 ^ w

/-- Multiplication of two `size_t` values (wraps modulo `2 ^ w`). -/
def size_mul (w a b : Nat) : Nat := (a * b) % 2 ^ w

/-- Default value of the `LAME_PAGE_ALIGNMENT` preprocessor constant
(`#ifndef LAME_PAGE_ALIGNMENT` / `#define LAME_PAGE_ALIGNMENT 16384`). -/
def LAME_PAGE_ALIGNMENT : Nat := 16384

/-- A call of a libc primitive, with its arguments (for `posix_memalign` the
alignment and the size; the out-parameter is not an input). -/
inductive Call where
  | posix_memalign (alignment size : Nat)
  | memset (s : Ptr) (c : Nat) (n : Nat)
  | free (p : Ptr)
  deriving DecidableEq

/-- The platform allocator, abstract.  `posix_memalign h cur alignment size`
is the call `posix_memalign(&ptr, alignment, size)` made in allocator state `h`
while `ptr` holds `cur`; it yields the returned status, the value `ptr` holds
after the call, and the next allocator state. -/
structure Libc (σ : Type) where
  posix_memalign : σ → Ptr → Nat → Nat → Int × Ptr × σ
  free : σ → Ptr → σ

/-- Program state: allocator state, byte memory, and the calls of libc
primitives made so far (oldest first). -/
structure State (σ : Type) where
  heap : σ
  mem : Ptr → Nat
  trace : List Call

/-- Calling `posix_memalign(&ptr, alignment, size)`: the primitive runs on the
allocator state and the call is recorded. -/
def call_posix_memalign {σ : Type} (L : Libc σ) (st : State σ) (ptr : Ptr)
    (alignment size : Nat) : Int × Ptr × State σ :=
  let out := L.posix_memalign st.heap ptr alignment size
  (out.1, out.2.1,
    { heap := out.2.2, mem := st.mem,
      trace := st.trace ++ [Call.posix_memalign alignment size] })

/-- Calling `memset(s, c, n)`: the `n` bytes from address `s` are set to
`(unsigned char)c`; returns `s`.  The call is recorded. -/
def call_memset {σ : Type} (st : State σ) (s : Ptr) (c n : Nat) : Ptr × State σ :=
  (s,
    { heap := st.heap,
      mem := fun a => if s ≤ a ∧ a < s + n then c % 256 else st.mem a,
      trace := st.trace ++ [Call.memset s c n] })

/-- Calling `free(p)`; the call is recorded. -/
def call_free {σ : Type} (L : Libc σ) (st : State σ) (p : Ptr) : State σ :=
  { heap := L.free st.heap p, mem := st.mem, trace := st.trace ++ [Call.free p] }

/-! ## The shim -/

/-- Value of the local `rounded` of `lame_aligned_malloc` at the call of
`posix_memalign`, for `align = (size_t)LAME_PAGE_ALIGNMENT` nonzero:
`rounded = ((size + align - 1) / align) * align; if (rounded == 0) rounded = align;`
in `size_t` arithmetic. -/
def rounded (w A size : Nat) : Nat :=
  let align := A % 2 ^ w
  let rounded := size_mul w (size_sub w (size_add w size align) 1 / align) align
  if rounded = 0 then align else rounded

/-- Embedding of `lame_aligned_malloc(size)`.  `none` is undefined behaviour
(the division by `align` when `(size_t)LAME_PAGE_ALIGNMENT` is 0). -/
def lame_aligned_malloc {σ : Type} (w A : Nat) (L : Libc σ) (st : State σ)
    (size : Nat) : Option (Ptr × State σ) :=
  let ptr : Ptr := NULL
  let align := A % 2 ^ w
  if align = 0 then none
  else
    let out := call_posix_memalign L st ptr align (rounded w A size)
    if out.1 ≠ 0 then some (NULL, out.2.2)
    else some (out.2.1, out.2.2)

/-- Embedding of `lame_aligned_calloc(nmemb, size)`. -/
def lame_aligned_calloc {σ : Type} (w A : Nat) (L : Libc σ) (st : State σ)
    (nmemb size : Nat) : Option (Ptr × State σ) :=
  let total := size_mul w nmemb size
  match lame_aligned_malloc w A L st total with
  | none => none
  | some (p, st1) =>
    if p ≠ NULL then some (p, (call_memset st1 p 0 total).2)
    else some (p, st1)

/-- Embedding of `lame_aligned_free(p)`. -/
def lame_aligned_free {σ : Type} (L : Libc σ) (st : State σ) (p : Ptr) : State σ :=
  call_free L st p

/-! ## Concrete platforms used to instantiate the results -/

/-- A bump allocator: allocator state is the first unused address; a request
with a nonzero alignment succeeds at the next multiple of the alignment above
it, a request with alignment 0 fails with `EINVAL` (22) and leaves `ptr`. -/
def bumpLibc : Libc Nat where
  posix_memalign := fun h cur alignment size =>
    if alignment = 0 then (22, cur, h)
    else (0, (h / alignment + 1) * alignment, (h / alignment + 1) * alignment + size)
  free := fun h _ => h

/-- An exhausted allocator: every request fails with `ENOMEM` (12) and leaves
`ptr` untouched. -/
def failLibc : Libc Unit where
  posix_memalign := fun h cur _ _ => (12, cur, h)
  free := fun h _ => h

/-- Initial state: given allocator state, memory filled with `0xAA`, no calls. -/
def initState {σ : Type} (h : σ) : State σ :=
  { heap := h, mem := fun _ => 170, trace := [] }

/-! ## Contract of the consumed primitive -/

/-- A successful `posix_memalign` stores an address divisible by the alignment
it was given. -/
def AlignedOnSuccess {σ : Type} (L : Libc σ) : Prop :=
  ∀ h cur alignment size,
    (L.posix_memalign h cur alignment size).1 = 0 →
      (L.posix_memalign h cur alignment size).2.1 % alignment = 0

/-- A successful `posix_memalign` of a nonzero size stores a block, that is a
non-null pointer ("returns a block ... or signals failure"). -/
def BlockOnSuccess {σ : Type} (L : Libc σ) : Prop :=
  ∀ h cur alignment size, 0 < size →
    (L.posix_memalign h cur alignment size).1 = 0 →
      (L.posix_memalign h cur alignment size).2.1 ≠ NULL

/-! ## Arithmetic of the rounding -/

theorem size_sub_add_one (w A size : Nat) (hA : 0 < A) (hAw : A < 2 ^ w)
    (hs : size < 2 ^ w) :
    size_sub w (size_add w size A) 1 = (size + A - 1) % 2 ^ w := by
  unfold size_sub size_add
  generalize 2 ^ w = M at *
  have h1 : 1 % M = 1 := Nat.mod_eq_of_lt (by omega)
  rw [Nat.mod_mod, h1]
  by_cases h : size + A < M
  · rw [Nat.mod_eq_of_lt h]
    have e : size + A + (M - 1) = (size + A - 1) + M := by omega
    rw [e, Nat.add_mod_right]
  · have h2 : (size + A) % M = size + A - M := by
      rw [Nat.mod_eq_sub_mod (by omega)]
      exact Nat.mod_eq_of_lt (by omega)
    rw [h2]
    have e : size + A - M + (M - 1) = size + A - 1 := by omega
    rw [e]

theorem size_sub_lt (w a b : Nat) : size_sub w a b < 2 ^ w :=
  Nat.mod_lt _ (Nat.pow_pos (by decide))

theorem rounded_eq_gen (w A size : Nat) (hA : 0 < A) (hAw : A < 2 ^ w) :
    rounded w A size =
      if size_sub w (size_add w size A) 1 / A = 0 then A
      else size_sub w (size_add w size A) 1 / A * A := by
  unfold rounded
  simp only [Nat.mod_eq_of_lt hAw]
  unfold size_mul
  have ht := size_sub_lt w (size_add w size A) 1
  have hle : size_sub w (size_add w size A) 1 / A * A ≤ size_sub w (size_add w size A) 1 :=
    Nat.div_mul_le_self _ _
  rw [Nat.mod_eq_of_lt (by omega)]
  by_cases hq : size_sub w (size_add w size A) 1 / A = 0
  · simp [hq]
  · have : size_sub w (size_add w size A) 1 / A * A ≠ 0 := Nat.mul_ne_zero hq (by omega)
    simp [hq, this]

theorem rounded_eq (w A size : Nat) (hA : 0 < A) (hAw : A < 2 ^ w)
    (hs : size < 2 ^ w) :
    rounded w A size =
      if (size + A - 1) % 2 ^ w / A = 0 then A
      else (size + A - 1) % 2 ^ w / A * A := by
  rw [rounded_eq_gen w A size hA hAw, size_sub_add_one w A size hA hAw hs]

theorem rounded_pos (w A size : Nat) (hA : 0 < A) (hAw : A < 2 ^ w) :
    0 < rounded w A size := by
  rw [rounded_eq_gen w A size hA hAw]
  split
  · exact hA
  · rename_i hq
    exact Nat.mul_pos (Nat.pos_of_ne_zero hq) hA

theorem rounded_dvd (w A size : Nat) (hA : 0 < A) (hAw : A < 2 ^ w) :
    A ∣ rounded w A size := by
  rw [rounded_eq_gen w A size hA hAw]
  split
  · exact dvd_rfl
  · exact Dvd.intro_left _ rfl

theorem rounded_lt (w A size : Nat) (hA : 0 < A) (hAw : A < 2 ^ w) :
    rounded w A size < 2 ^ w := by
  rw [rounded_eq_gen w A size hA hAw]
  split
  · exact hAw
  · have ht := size_sub_lt w (size_add w size A) 1
    have hle : size_sub w (size_add w size A) 1 / A * A ≤ size_sub w (size_add w size A) 1 :=
      Nat.div_mul_le_self _ _
    omega

theorem rounded_zero (w A : Nat) (hA : 0 < A) (hAw : A < 2 ^ w) :
    rounded w A 0 = A := by
  rw [rounded_eq w A 0 hA hAw (by omega)]
  have e : (0 + A - 1) % 2 ^ w / A = 0 := by
    rw [Nat.mod_eq_of_lt (by omega)]
    exact Nat.div_eq_of_lt (by omega)
  rw [if_pos e]

theorem rounded_nowrap (w A size : Nat) (hA : 0 < A) (hAw : A < 2 ^ w)
    (hpos : 0 < size) (hnw : size + A - 1 < 2 ^ w) :
    rounded w A size = (size + A - 1) / A * A := by
  rw [rounded_eq w A size hA hAw (by omega), Nat.mod_eq_of_lt hnw]
  have hq : (size + A - 1) / A ≠ 0 := by
    have : 1 ≤ (size + A - 1) / A := (Nat.le_div_iff_mul_le hA).2 (by omega)
    omega
  simp [hq]

theorem size_le_ceil_mul (A size : Nat) (hA : 0 < A) :
    size ≤ (size + A - 1) / A * A := by
  have h1 := Nat.div_add_mod (size + A - 1) A
  have h2 := Nat.mod_lt (size + A - 1) hA
  have h3 : A * ((size + A - 1) / A) = (size + A - 1) / A * A := Nat.mul_comm _ _
  omega

theorem ceil_mul_le_of_dvd (A size m : Nat) (hA : 0 < A) (hm : A ∣ m)
    (hle : size ≤ m) : (size + A - 1) / A * A ≤ m := by
  obtain ⟨k, rfl⟩ := hm
  have : (size + A - 1) / A ≤ k := by
    have h : size + A - 1 < (k + 1) * A := by
      have : (k + 1) * A = A * k + A := by ring
      omega
    exact Nat.lt_succ_iff.1 ((Nat.div_lt_iff_lt_mul hA).2 h)
  calc (size + A - 1) / A * A ≤ k * A := Nat.mul_le_mul_right A this
    _ = A * k := Nat.mul_comm _ _

theorem ceil_mul_eq_natCeil (A size : Nat) (hA : 0 < A) :
    (size + A - 1) / A * A = ⌈(size : ℚ) / (A : ℚ)⌉₊ * A := by
  congr 1
  apply le_antisymm
  · have hAq : (0 : ℚ) < (A : ℚ) := by exact_mod_cast hA
    have h1 : (size : ℚ) / (A : ℚ) ≤ (⌈(size : ℚ) / (A : ℚ)⌉₊ : ℚ) := Nat.le_ceil _
    have h2 : (size : ℚ) ≤ (⌈(size : ℚ) / (A : ℚ)⌉₊ : ℚ) * (A : ℚ) :=
      (div_le_iff₀ hAq).1 h1
    have h3 : size ≤ ⌈(size : ℚ) / (A : ℚ)⌉₊ * A := by exact_mod_cast h2
    have h4 := ceil_mul_le_of_dvd A size (⌈(size : ℚ) / (A : ℚ)⌉₊ * A) hA
      (Dvd.intro_left _ rfl) h3
    exact Nat.le_of_mul_le_mul_right h4 hA
  · apply Nat.ceil_le.2
    have hAq : (0 : ℚ) < (A : ℚ) := by exact_mod_cast hA
    rw [div_le_iff₀ hAq]
    have := size_le_ceil_mul A size hA
    exact_mod_cast this

theorem rounded_of_dvd (w A m : Nat) (hA : 0 < A) (hAw : A < 2 ^ w)
    (hpos : 0 < m) (hm : A ∣ m) (hnw : m + A - 1 < 2 ^ w) :
    rounded w A m = m := by
  rw [rounded_nowrap w A m hA hAw hpos hnw]
  apply le_antisymm
  · exact ceil_mul_le_of_dvd A m m hA hm le_rfl
  · exact size_le_ceil_mul A m hA

theorem rounded_add_lt_of_dvd_pow (w A size : Nat) (hA : 0 < A) (hAw : A < 2 ^ w)
    (hdvd : A ∣ 2 ^ w) : rounded w A size + A - 1 < 2 ^ w := by
  obtain ⟨q, hq⟩ := rounded_dvd w A size hA hAw
  obtain ⟨c, hc⟩ := hdvd
  have hlt := rounded_lt w A size hA hAw
  rw [hq, hc] at hlt
  have hqc : q < c := Nat.lt_of_mul_lt_mul_left hlt
  have : A * (q + 1) ≤ A * c := Nat.mul_le_mul_left A hqc
  rw [hq, hc]
  have e : A * (q + 1) = A * q + A := by ring
  omega

/-! ## Unfolding the shim -/

theorem lame_aligned_malloc_eq {σ : Type} (w A : Nat) (L : Libc σ) (st : State σ)
    (size : Nat) (hA : 0 < A) (hAw : A < 2 ^ w) :
    lame_aligned_malloc w A L st size =
      some
        (if (L.posix_memalign st.heap NULL A (rounded w A size)).1 ≠ 0 then NULL
          else (L.posix_memalign st.heap NULL A (rounded w A size)).2.1,
         { heap := (L.posix_memalign st.heap NULL A (rounded w A size)).2.2,
           mem := st.mem,
           trace := st.trace ++ [Call.posix_memalign A (rounded w A size)] }) := by
  unfold lame_aligned_malloc call_posix_memalign
  have hne : A ≠ 0 := by omega
  simp only [Nat.mod_eq_of_lt hAw, if_neg hne]
  by_cases h : (L.posix_memalign st.heap NULL A (rounded w A size)).1 ≠ 0
  · rw [if_pos h, if_pos h]
  · rw [if_neg h, if_neg h]


theorem lame_aligned_calloc_of_malloc {σ : Type} (w A : Nat) (L : Libc σ)
    (st : State σ) (nmemb size : Nat) (p : Ptr) (st1 : State σ)
    (h : lame_aligned_malloc w A L st (size_mul w nmemb size) = some (p, st1)) :
    lame_aligned_calloc w A L st nmemb size =
      some (p, if p ≠ NULL then (call_memset st1 p 0 (size_mul w nmemb size)).2 else st1) := by
  unfold lame_aligned_calloc
  simp only [h]
  by_cases hp : p ≠ NULL
  · rw [if_pos hp, if_pos hp]
  · rw [if_neg hp, if_neg hp]

/-! ## Results -/

/-- C1: when `size + LAME_PAGE_ALIGNMENT - 1` does not wrap, the single call
`lame_aligned_malloc(size)` makes is `posix_memalign(&ptr, align, r)` where,
for `size > 0`, `r` is the least multiple of the alignment that is at least
`size`, equal to `ceil(size / align) * align`, and for `size = 0` it is exactly
one alignment unit. -/
theorem malloc_requests_least_multiple {σ : Type} (w A : Nat) (L : Libc σ)
    (st : State σ) (size : Nat) (hA : 0 < A) (hAw : A < 2 ^ w)
    (hnw : size + A - 1 ≤ SIZE_MAX w) :
    ∃ p st', lame_aligned_malloc w A L st size = some (p, st') ∧
      st'.trace = st.trace ++ [Call.posix_memalign A (rounded w A size)] ∧
      (0 < size →
        A ∣ rounded w A size ∧ size ≤ rounded w A size ∧
        (∀ m, A ∣ m → size ≤ m → rounded w A size ≤ m) ∧
        rounded w A size = ⌈(size : ℚ) / (A : ℚ)⌉₊ * A) ∧
      (size = 0 → rounded w A size = A) := by
  have hnw' : size + A - 1 < 2 ^ w := by unfold SIZE_MAX at hnw; omega
  refine ⟨_, _, lame_aligned_malloc_eq w A L st size hA hAw, rfl, ?_, ?_⟩
  · intro hpos
    have e := rounded_nowrap w A size hA hAw hpos hnw'
    refine ⟨rounded_dvd w A size hA hAw, ?_, ?_, ?_⟩
    · rw [e]; exact size_le_ceil_mul A size hA
    · intro m hm hle
      rw [e]; exact ceil_mul_le_of_dvd A size m hA hm hle
    · rw [e]; exact ceil_mul_eq_natCeil A size hA
  · intro h0
    rw [h0]; exact rounded_zero w A hA hAw

/-- Instance of C1 on a 64-bit target with the default alignment 16384:
`lame_aligned_malloc(1)` requests 16384 bytes. -/
theorem malloc_requests_least_multiple_witness :
    (0 < LAME_PAGE_ALIGNMENT ∧ LAME_PAGE_ALIGNMENT < 2 ^ 64 ∧
      1 + LAME_PAGE_ALIGNMENT - 1 ≤ SIZE_MAX 64) ∧
    (∃ p st', lame_aligned_malloc 64 LAME_PAGE_ALIGNMENT bumpLibc (initState 0) 1
        = some (p, st') ∧
      st'.trace = (initState 0).trace ++
        [Call.posix_memalign LAME_PAGE_ALIGNMENT (rounded 64 LAME_PAGE_ALIGNMENT 1)] ∧
      (0 < 1 →
        LAME_PAGE_ALIGNMENT ∣ rounded 64 LAME_PAGE_ALIGNMENT 1 ∧
        1 ≤ rounded 64 LAME_PAGE_ALIGNMENT 1 ∧
        (∀ m, LAME_PAGE_ALIGNMENT ∣ m → 1 ≤ m → rounded 64 LAME_PAGE_ALIGNMENT 1 ≤ m) ∧
        rounded 64 LAME_PAGE_ALIGNMENT 1
          = ⌈((1 : ℕ) : ℚ) / (LAME_PAGE_ALIGNMENT : ℚ)⌉₊ * LAME_PAGE_ALIGNMENT) ∧
      (1 = 0 → rounded 64 LAME_PAGE_ALIGNMENT 1 = LAME_PAGE_ALIGNMENT)) ∧
    rounded 64 LAME_PAGE_ALIGNMENT 1 = 16384 :=
  ⟨⟨by decide, by decide, by decide⟩,
    malloc_requests_least_multiple 64 LAME_PAGE_ALIGNMENT bumpLibc (initState 0) 1
      (by decide) (by decide) (by decide),
    by decide⟩

/-- C7: for every `size` (wrapping or not), the byte count
`lame_aligned_malloc(size)` passes to `posix_memalign` is positive, a multiple
of the alignment, and at most `SIZE_MAX`. -/
theorem malloc_request_positive_multiple {σ : Type} (w A : Nat) (L : Libc σ)
    (st : State σ) (size : Nat) (hA : 0 < A) (hAw : A < 2 ^ w) :
    ∃ p st', lame_aligned_malloc w A L st size = some (p, st') ∧
      st'.trace = st.trace ++ [Call.posix_memalign A (rounded w A size)] ∧
      0 < rounded w A size ∧ A ∣ rounded w A size ∧ rounded w A size ≤ SIZE_MAX w := by
  refine ⟨_, _, lame_aligned_malloc_eq w A L st size hA hAw, rfl,
    rounded_pos w A size hA hAw, rounded_dvd w A size hA hAw, ?_⟩
  have := rounded_lt w A size hA hAw
  unfold SIZE_MAX; omega

/-- Instance of C7 at `size = SIZE_MAX` on a 64-bit target with the default
alignment, where `size + align - 1` wraps. -/
theorem malloc_request_positive_multiple_witness :
    (0 < LAME_PAGE_ALIGNMENT ∧ LAME_PAGE_ALIGNMENT < 2 ^ 64) ∧
    (∃ p st', lame_aligned_malloc 64 LAME_PAGE_ALIGNMENT bumpLibc (initState 0)
        (SIZE_MAX 64) = some (p, st') ∧
      st'.trace = (initState 0).trace ++
        [Call.posix_memalign LAME_PAGE_ALIGNMENT
          (rounded 64 LAME_PAGE_ALIGNMENT (SIZE_MAX 64))] ∧
      0 < rounded 64 LAME_PAGE_ALIGNMENT (SIZE_MAX 64) ∧
      LAME_PAGE_ALIGNMENT ∣ rounded 64 LAME_PAGE_ALIGNMENT (SIZE_MAX 64) ∧
      rounded 64 LAME_PAGE_ALIGNMENT (SIZE_MAX 64) ≤ SIZE_MAX 64) :=
  ⟨⟨by decide, by decide⟩,
    malloc_request_positive_multiple 64 LAME_PAGE_ALIGNMENT bumpLibc (initState 0)
      (SIZE_MAX 64) (by decide) (by decide)⟩


theorem bumpLibc_blockOnSuccess : BlockOnSuccess bumpLibc := by
  intro h cur alignment size _ hst
  unfold bumpLibc at hst ⊢
  by_cases ha : alignment = 0
  · simp [ha] at hst
  · simp only [if_neg ha]
    unfold NULL
    exact Nat.mul_ne_zero (Nat.succ_ne_zero _) ha

theorem bumpLibc_alignedOnSuccess : AlignedOnSuccess bumpLibc := by
  intro h cur alignment size hst
  unfold bumpLibc at hst ⊢
  by_cases ha : alignment = 0
  · simp [ha] at hst
  · simp only [if_neg ha]
    exact Nat.mul_mod_left _ _

/-- C5: `lame_aligned_malloc(size)` makes exactly one call of `posix_memalign`
(the trace grows by that single call and the allocator state is the one that
call leaves); when the call returns a nonzero status the result is `NULL`, when
it returns 0 the result is the pointer the call stored in `ptr`; and for a
primitive that stores a block (a non-null pointer) whenever it reports success
for a nonzero size, the result is `NULL` exactly when the status is nonzero. -/
theorem malloc_null_iff_primitive_fails {σ : Type} (w A : Nat) (L : Libc σ)
    (st : State σ) (size : Nat) (hA : 0 < A) (hAw : A < 2 ^ w) :
    ∃ p st', lame_aligned_malloc w A L st size = some (p, st') ∧
      st'.trace = st.trace ++ [Call.posix_memalign A (rounded w A size)] ∧
      st'.heap = (L.posix_memalign st.heap NULL A (rounded w A size)).2.2 ∧
      st'.mem = st.mem ∧
      ((L.posix_memalign st.heap NULL A (rounded w A size)).1 ≠ 0 → p = NULL) ∧
      ((L.posix_memalign st.heap NULL A (rounded w A size)).1 = 0 →
        p = (L.posix_memalign st.heap NULL A (rounded w A size)).2.1) ∧
      (BlockOnSuccess L →
        (p = NULL ↔ (L.posix_memalign st.heap NULL A (rounded w A size)).1 ≠ 0)) := by
  refine ⟨_, _, lame_aligned_malloc_eq w A L st size hA hAw, rfl, rfl, rfl, ?_, ?_, ?_⟩
  · intro h
    rw [if_pos h]
  · intro h0
    rw [if_neg (not_not.2 h0)]
  · intro hL
    by_cases h : (L.posix_memalign st.heap NULL A (rounded w A size)).1 ≠ 0
    · rw [if_pos h]; exact ⟨fun _ => h, fun _ => rfl⟩
    · rw [if_neg h]
      have h0 : (L.posix_memalign st.heap NULL A (rounded w A size)).1 = 0 := not_not.1 h
      exact ⟨fun hp => absurd hp (hL _ _ _ _ (rounded_pos w A size hA hAw) h0),
        fun hne => absurd hne h⟩

/-- Instance of C5 on a 64-bit target with the default alignment: with a bump
allocator `lame_aligned_malloc(100)` returns the stored pointer 16384, with an
exhausted allocator it returns `NULL`; one call is made in each case. -/
theorem malloc_null_iff_primitive_fails_witness :
    (0 < LAME_PAGE_ALIGNMENT ∧ LAME_PAGE_ALIGNMENT < 2 ^ 64 ∧ BlockOnSuccess bumpLibc) ∧
    (∃ p st', lame_aligned_malloc 64 LAME_PAGE_ALIGNMENT bumpLibc (initState 5) 100
        = some (p, st') ∧
      st'.trace = (initState 5).trace ++
        [Call.posix_memalign LAME_PAGE_ALIGNMENT (rounded 64 LAME_PAGE_ALIGNMENT 100)] ∧
      st'.heap = (bumpLibc.posix_memalign (initState 5).heap NULL LAME_PAGE_ALIGNMENT
        (rounded 64 LAME_PAGE_ALIGNMENT 100)).2.2 ∧
      st'.mem = (initState 5).mem ∧
      ((bumpLibc.posix_memalign (initState 5).heap NULL LAME_PAGE_ALIGNMENT
          (rounded 64 LAME_PAGE_ALIGNMENT 100)).1 ≠ 0 → p = NULL) ∧
      ((bumpLibc.posix_memalign (initState 5).heap NULL LAME_PAGE_ALIGNMENT
          (rounded 64 LAME_PAGE_ALIGNMENT 100)).1 = 0 →
        p = (bumpLibc.posix_memalign (initState 5).heap NULL LAME_PAGE_ALIGNMENT
          (rounded 64 LAME_PAGE_ALIGNMENT 100)).2.1) ∧
      (BlockOnSuccess bumpLibc →
        (p = NULL ↔ (bumpLibc.posix_memalign (initState 5).heap NULL LAME_PAGE_ALIGNMENT
          (rounded 64 LAME_PAGE_ALIGNMENT 100)).1 ≠ 0))) ∧
    (lame_aligned_malloc 64 LAME_PAGE_ALIGNMENT bumpLibc (initState 5) 100).map
        (fun r => (r.1, r.2.heap, r.2.trace))
      = some (16384, 32768, [Call.posix_memalign 16384 16384]) ∧
    (lame_aligned_malloc 64 LAME_PAGE_ALIGNMENT failLibc (initState ()) 100).map
        (fun r => (r.1, r.2.trace))
      = some (NULL, [Call.posix_memalign 16384 16384]) :=
  ⟨⟨by decide, by decide, bumpLibc_blockOnSuccess⟩,
    malloc_null_iff_primitive_fails 64 LAME_PAGE_ALIGNMENT bumpLibc (initState 5) 100
      (by decide) (by decide),
    by decide, by decide⟩

/-- C6: if the underlying `lame_aligned_malloc(nmemb * size)` fails (returns
`NULL`, leaving state `st1`), then `lame_aligned_calloc(nmemb, size)` returns
`NULL` in that same state: memory is what it was before the call and the only
primitive called is `posix_memalign` (no `memset`). -/
theorem calloc_failure_no_zeroing {σ : Type} (w A : Nat) (L : Libc σ)
    (st st1 : State σ) (nmemb size : Nat)
    (hfail : lame_aligned_malloc w A L st (size_mul w nmemb size) = some (NULL, st1)) :
    lame_aligned_calloc w A L st nmemb size = some (NULL, st1) ∧
      st1.mem = st.mem ∧
      st1.trace = st.trace ++
        [Call.posix_memalign (A % 2 ^ w) (rounded w A (size_mul w nmemb size))] ∧
      (∀ s c n, Call.memset s c n ∈ st1.trace → Call.memset s c n ∈ st.trace) := by
  have hc := lame_aligned_calloc_of_malloc w A L st nmemb size NULL st1 hfail
  rw [if_neg (not_not.2 rfl)] at hc
  have hst : st1.mem = st.mem ∧ st1.trace = st.trace ++
      [Call.posix_memalign (A % 2 ^ w) (rounded w A (size_mul w nmemb size))] := by
    unfold lame_aligned_malloc call_posix_memalign at hfail
    by_cases ha : A % 2 ^ w = 0
    · simp [ha] at hfail
    · simp only [if_neg ha] at hfail
      split at hfail
      · simp only [Option.some.injEq, Prod.mk.injEq, true_and] at hfail
        rw [← hfail]; exact ⟨rfl, rfl⟩
      · simp only [Option.some.injEq, Prod.mk.injEq] at hfail
        rw [← hfail.2]; exact ⟨rfl, rfl⟩
  refine ⟨hc, hst.1, hst.2, ?_⟩
  intro s c n hmem
  rw [hst.2] at hmem
  simpa using hmem

/-- Instance of C6 with an exhausted allocator: `lame_aligned_calloc(4, 4)`
returns `NULL`, memory is untouched and only `posix_memalign` was called. -/
theorem calloc_failure_no_zeroing_witness :
    lame_aligned_malloc 64 LAME_PAGE_ALIGNMENT failLibc (initState ()) (size_mul 64 4 4)
      = some (NULL,
          { heap := (), mem := (initState ()).mem,
            trace := [Call.posix_memalign 16384 16384] }) ∧
    (lame_aligned_calloc 64 LAME_PAGE_ALIGNMENT failLibc (initState ()) 4 4
      = some (NULL,
          { heap := (), mem := (initState ()).mem,
            trace := [Call.posix_memalign 16384 16384] }) ∧
      (initState ()).mem = (initState ()).mem ∧
      [Call.posix_memalign 16384 16384] = (initState ()).trace ++
        [Call.posix_memalign (LAME_PAGE_ALIGNMENT % 2 ^ 64)
          (rounded 64 LAME_PAGE_ALIGNMENT (size_mul 64 4 4))] ∧
      (∀ s c n, Call.memset s c n ∈ [Call.posix_memalign 16384 16384] →
        Call.memset s c n ∈ (initState ()).trace)) :=
  ⟨rfl, calloc_failure_no_zeroing 64 LAME_PAGE_ALIGNMENT failLibc (initState ())
    { heap := (), mem := (initState ()).mem, trace := [Call.posix_memalign 16384 16384] }
    4 4 rfl⟩


theorem size_le_rounded (w A size : Nat) (hA : 0 < A) (hAw : A < 2 ^ w)
    (hnw : size + A - 1 < 2 ^ w) : size ≤ rounded w A size := by
  by_cases h0 : size = 0
  · rw [h0]; exact Nat.zero_le _
  · rw [rounded_nowrap w A size hA hAw (Nat.pos_of_ne_zero h0) hnw]
    exact size_le_ceil_mul A size hA

theorem calloc_state_trace {σ : Type} (st1 : State σ) (p : Ptr) (total : Nat) :
    ∃ rest, (if p ≠ NULL then (call_memset st1 p 0 total).2 else st1).trace
      = st1.trace ++ rest := by
  by_cases hp : p ≠ NULL
  · rw [if_pos hp]; exact ⟨[Call.memset p 0 total], rfl⟩
  · rw [if_neg hp]; exact ⟨[], (List.append_nil _).symm⟩

theorem call_memset_changes_within {σ : Type} (st1 : State σ) (p : Ptr)
    (total r : Nat) (hle : total ≤ r) (a : Ptr)
    (ha : (call_memset st1 p 0 total).2.mem a ≠ st1.mem a) :
    p ≤ a ∧ a < p + r := by
  by_cases hin : p ≤ a ∧ a < p + total
  · exact ⟨hin.1, Nat.lt_of_lt_of_le hin.2 (Nat.add_le_add_left hle p)⟩
  · exfalso
    apply ha
    simp only [call_memset]
    rw [if_neg hin]

/-- C3: `lame_aligned_malloc` always calls `posix_memalign` with alignment
argument `LAME_PAGE_ALIGNMENT`, whatever the size, and so does
`lame_aligned_calloc`; if a successful `posix_memalign` stores an address
divisible by the alignment it was given, every non-null pointer returned by
`lame_aligned_malloc` and `lame_aligned_calloc` is divisible by
`LAME_PAGE_ALIGNMENT`.  The default 16384 is `2 ^ 14`, a multiple of 4 and of
8, and fits a 32-bit and a 64-bit `size_t`. -/
theorem results_are_aligned {σ : Type} (w A : Nat) (L : Libc σ) (st : State σ)
    (hA : 0 < A) (hAw : A < 2 ^ w) (hL : AlignedOnSuccess L) :
    (∀ size, ∃ p st', lame_aligned_malloc w A L st size = some (p, st') ∧
      st'.trace = st.trace ++ [Call.posix_memalign A (rounded w A size)] ∧
      (p ≠ NULL → p % A = 0)) ∧
    (∀ nmemb size, ∃ p st', lame_aligned_calloc w A L st nmemb size = some (p, st') ∧
      (∃ rest, st'.trace = st.trace ++
        Call.posix_memalign A (rounded w A (size_mul w nmemb size)) :: rest) ∧
      (p ≠ NULL → p % A = 0)) ∧
    (LAME_PAGE_ALIGNMENT = 2 ^ 14 ∧ LAME_PAGE_ALIGNMENT % 4 = 0 ∧
      LAME_PAGE_ALIGNMENT % 8 = 0 ∧ 0 < LAME_PAGE_ALIGNMENT ∧
      LAME_PAGE_ALIGNMENT < 2 ^ 32 ∧ LAME_PAGE_ALIGNMENT < 2 ^ 64) := by
  have key : ∀ size,
      (if (L.posix_memalign st.heap NULL A (rounded w A size)).1 ≠ 0 then NULL
        else (L.posix_memalign st.heap NULL A (rounded w A size)).2.1) % A = 0 := by
    intro size
    by_cases h : (L.posix_memalign st.heap NULL A (rounded w A size)).1 ≠ 0
    · rw [if_pos h]; exact Nat.zero_mod A
    · rw [if_neg h]; exact hL _ _ _ _ (not_not.1 h)
  refine ⟨?_, ?_, by decide⟩
  · intro size
    exact ⟨_, _, lame_aligned_malloc_eq w A L st size hA hAw, rfl, fun _ => key size⟩
  · intro nmemb size
    have hm := lame_aligned_malloc_eq w A L st (size_mul w nmemb size) hA hAw
    refine ⟨_, _, lame_aligned_calloc_of_malloc w A L st nmemb size _ _ hm, ?_,
      fun _ => key _⟩
    obtain ⟨rest, hrest⟩ := calloc_state_trace
      { heap := (L.posix_memalign st.heap NULL A (rounded w A (size_mul w nmemb size))).2.2,
        mem := st.mem,
        trace := st.trace ++ [Call.posix_memalign A (rounded w A (size_mul w nmemb size))] }
      (if (L.posix_memalign st.heap NULL A (rounded w A (size_mul w nmemb size))).1 ≠ 0
        then NULL
        else (L.posix_memalign st.heap NULL A (rounded w A (size_mul w nmemb size))).2.1)
      (size_mul w nmemb size)
    refine ⟨rest, ?_⟩
    rw [hrest]
    simp

/-- Instance of C3 on a 64-bit target with the default alignment and a bump
allocator. -/
theorem results_are_aligned_witness :
    (0 < LAME_PAGE_ALIGNMENT ∧ LAME_PAGE_ALIGNMENT < 2 ^ 64 ∧
      AlignedOnSuccess bumpLibc) ∧
    ((∀ size, ∃ p st',
        lame_aligned_malloc 64 LAME_PAGE_ALIGNMENT bumpLibc (initState 5) size
          = some (p, st') ∧
        st'.trace = (initState 5).trace ++
          [Call.posix_memalign LAME_PAGE_ALIGNMENT (rounded 64 LAME_PAGE_ALIGNMENT size)] ∧
        (p ≠ NULL → p % LAME_PAGE_ALIGNMENT = 0)) ∧
      (∀ nmemb size, ∃ p st',
        lame_aligned_calloc 64 LAME_PAGE_ALIGNMENT bumpLibc (initState 5) nmemb size
          = some (p, st') ∧
        (∃ rest, st'.trace = (initState 5).trace ++
          Call.posix_memalign LAME_PAGE_ALIGNMENT
            (rounded 64 LAME_PAGE_ALIGNMENT (size_mul 64 nmemb size)) :: rest) ∧
        (p ≠ NULL → p % LAME_PAGE_ALIGNMENT = 0)) ∧
      (LAME_PAGE_ALIGNMENT = 2 ^ 14 ∧ LAME_PAGE_ALIGNMENT % 4 = 0 ∧
        LAME_PAGE_ALIGNMENT % 8 = 0 ∧ 0 < LAME_PAGE_ALIGNMENT ∧
        LAME_PAGE_ALIGNMENT < 2 ^ 32 ∧ LAME_PAGE_ALIGNMENT < 2 ^ 64)) ∧
    (lame_aligned_malloc 64 LAME_PAGE_ALIGNMENT bumpLibc (initState 5) 20000).map
        (fun r => (r.1, r.1 % LAME_PAGE_ALIGNMENT, r.2.trace))
      = some (16384, 0, [Call.posix_memalign 16384 32768]) :=
  ⟨⟨by decide, by decide, bumpLibc_alignedOnSuccess⟩,
    results_are_aligned 64 LAME_PAGE_ALIGNMENT bumpLibc (initState 5)
      (by decide) (by decide) bumpLibc_alignedOnSuccess,
    by decide⟩

/-- C10: let `total` be the wrapped product `nmemb * size` that
`lame_aligned_calloc` computes.  If `total + LAME_PAGE_ALIGNMENT - 1` does not
wrap and the allocation succeeds, the calls made are
`posix_memalign(&ptr, align, r)` then `memset(p, 0, total)` with `total ≤ r`,
and every byte of memory that changed lies in `[p, p + r)`.  Nothing is assumed
about `nmemb * size` itself fitting `size_t`. -/
theorem calloc_memset_within_block {σ : Type} (w A : Nat) (L : Libc σ)
    (st : State σ) (nmemb size : Nat) (hA : 0 < A) (hAw : A < 2 ^ w)
    (hnw : size_mul w nmemb size + A - 1 ≤ SIZE_MAX w) :
    ∃ p st', lame_aligned_calloc w A L st nmemb size = some (p, st') ∧
      (p ≠ NULL →
        st'.trace = st.trace ++
          [Call.posix_memalign A (rounded w A (size_mul w nmemb size)),
            Call.memset p 0 (size_mul w nmemb size)] ∧
        size_mul w nmemb size ≤ rounded w A (size_mul w nmemb size) ∧
        (∀ a, st'.mem a ≠ st.mem a →
          p ≤ a ∧ a < p + rounded w A (size_mul w nmemb size))) := by
  have hnw' : size_mul w nmemb size + A - 1 < 2 ^ w := by
    unfold SIZE_MAX at hnw; omega
  have hle := size_le_rounded w A (size_mul w nmemb size) hA hAw hnw'
  have hm := lame_aligned_malloc_eq w A L st (size_mul w nmemb size) hA hAw
  refine ⟨_, _, lame_aligned_calloc_of_malloc w A L st nmemb size _ _ hm, ?_⟩
  intro hp
  rw [if_pos hp]
  refine ⟨by simp [call_memset], hle, ?_⟩
  intro a ha
  exact call_memset_changes_within _ _ _ _ hle a ha

/-- Instance of C10 on a 64-bit target with the default alignment and a bump
allocator, at `nmemb = 2 ^ 32 + 1`, `size = 2 ^ 32`: the product wraps to
`2 ^ 32`, and 4294967296 bytes are requested and zeroed. -/
theorem calloc_memset_within_block_witness :
    (0 < LAME_PAGE_ALIGNMENT ∧ LAME_PAGE_ALIGNMENT < 2 ^ 64 ∧
      size_mul 64 (2 ^ 32 + 1) (2 ^ 32) + LAME_PAGE_ALIGNMENT - 1 ≤ SIZE_MAX 64) ∧
    (∃ p st',
      lame_aligned_calloc 64 LAME_PAGE_ALIGNMENT bumpLibc (initState 5) (2 ^ 32 + 1) (2 ^ 32)
        = some (p, st') ∧
      (p ≠ NULL →
        st'.trace = (initState 5).trace ++
          [Call.posix_memalign LAME_PAGE_ALIGNMENT
              (rounded 64 LAME_PAGE_ALIGNMENT (size_mul 64 (2 ^ 32 + 1) (2 ^ 32))),
            Call.memset p 0 (size_mul 64 (2 ^ 32 + 1) (2 ^ 32))] ∧
        size_mul 64 (2 ^ 32 + 1) (2 ^ 32)
          ≤ rounded 64 LAME_PAGE_ALIGNMENT (size_mul 64 (2 ^ 32 + 1) (2 ^ 32)) ∧
        (∀ a, st'.mem a ≠ (initState 5).mem a →
          p ≤ a ∧ a < p + rounded 64 LAME_PAGE_ALIGNMENT
            (size_mul 64 (2 ^ 32 + 1) (2 ^ 32))))) ∧
    (lame_aligned_calloc 64 LAME_PAGE_ALIGNMENT bumpLibc (initState 5) (2 ^ 32 + 1) (2 ^ 32)).map
        (fun r => (r.1, r.2.trace))
      = some (16384,
          [Call.posix_memalign 16384 4294967296, Call.memset 16384 0 4294967296]) ∧
    SIZE_MAX 64 < (2 ^ 32 + 1) * 2 ^ 32 :=
  ⟨⟨by decide, by decide, by decide⟩,
    calloc_memset_within_block 64 LAME_PAGE_ALIGNMENT bumpLibc (initState 5)
      (2 ^ 32 + 1) (2 ^ 32) (by decide) (by decide) (by decide),
    by decide, by decide⟩


theorem size_mul_three_max (w : Nat) (hw : 3 ≤ 2 ^ w) :
    size_mul w 3 (SIZE_MAX w) = 2 ^ w - 3 := by
  unfold size_mul SIZE_MAX
  generalize 2 ^ w = M at *
  have e : 3 * (M - 1) = (M - 3) + M * 2 := by omega
  rw [e, Nat.add_mul_mod_self_left]
  exact Nat.mod_eq_of_lt (by omega)

theorem rounded_near_max (w A : Nat) (hA : 4 ≤ A) (hAw : A + 3 < 2 ^ w) :
    rounded w A (2 ^ w - 3) = A := by
  rw [rounded_eq w A (2 ^ w - 3) (by omega) (by omega) (by omega)]
  have e : 2 ^ w - 3 + A - 1 = (A - 4) + 2 ^ w := by omega
  have hq : (2 ^ w - 3 + A - 1) % 2 ^ w / A = 0 := by
    rw [e, Nat.add_mod_right, Nat.mod_eq_of_lt (by omega)]
    exact Nat.div_eq_of_lt (by omega)
  rw [if_pos hq]

/-- C9: `lame_aligned_calloc` does not check `nmemb * size` for overflow.  For
`nmemb = 3`, `size = SIZE_MAX` the product exceeds `SIZE_MAX` and wraps; the
block requested from `posix_memalign` is smaller than the product and smaller
than the wrapped total; and whenever the primitive succeeds, the calls made are
that `posix_memalign` followed by a `memset` whose length exceeds the requested
block size. -/
theorem calloc_overflow_undersized (w A : Nat) (hA : 4 ≤ A) (hAw : A + 3 < 2 ^ w) :
    ∃ nmemb size, nmemb ≤ SIZE_MAX w ∧ size ≤ SIZE_MAX w ∧
      SIZE_MAX w < nmemb * size ∧
      size_mul w nmemb size < nmemb * size ∧
      rounded w A (size_mul w nmemb size) < nmemb * size ∧
      rounded w A (size_mul w nmemb size) < size_mul w nmemb size ∧
      ∀ (σ : Type) (L : Libc σ) (st : State σ),
        (L.posix_memalign st.heap NULL A (rounded w A (size_mul w nmemb size))).1 = 0 →
        (L.posix_memalign st.heap NULL A (rounded w A (size_mul w nmemb size))).2.1 ≠ NULL →
        ∃ st', lame_aligned_calloc w A L st nmemb size
            = some ((L.posix_memalign st.heap NULL A
                (rounded w A (size_mul w nmemb size))).2.1, st') ∧
          st'.trace = st.trace ++
            [Call.posix_memalign A (rounded w A (size_mul w nmemb size)),
              Call.memset
                (L.posix_memalign st.heap NULL A (rounded w A (size_mul w nmemb size))).2.1
                0 (size_mul w nmemb size)] := by
  have hmul := size_mul_three_max w (by omega)
  have hr := rounded_near_max w A hA hAw
  refine ⟨3, SIZE_MAX w, ?_, le_rfl, ?_, ?_, ?_, ?_, ?_⟩
  · unfold SIZE_MAX; omega
  · unfold SIZE_MAX; omega
  · rw [hmul]; unfold SIZE_MAX; omega
  · rw [hmul, hr]; unfold SIZE_MAX; omega
  · rw [hmul, hr]; omega
  · intro σ L st h0 hp
    have hm := lame_aligned_malloc_eq w A L st (size_mul w 3 (SIZE_MAX w))
      (by omega) (by omega)
    rw [if_neg (not_not.2 h0)] at hm
    have hc := lame_aligned_calloc_of_malloc w A L st 3 (SIZE_MAX w) _ _ hm
    rw [if_pos hp] at hc
    exact ⟨_, hc, by simp [call_memset]⟩

/-- Instance of C9 on a 64-bit target with the default alignment; with a bump
allocator `lame_aligned_calloc(3, SIZE_MAX)` requests 16384 bytes and then
zeroes `2 ^ 64 - 3` bytes. -/
theorem calloc_overflow_undersized_witness :
    (4 ≤ LAME_PAGE_ALIGNMENT ∧ LAME_PAGE_ALIGNMENT + 3 < 2 ^ 64) ∧
    (∃ nmemb size, nmemb ≤ SIZE_MAX 64 ∧ size ≤ SIZE_MAX 64 ∧
      SIZE_MAX 64 < nmemb * size ∧
      size_mul 64 nmemb size < nmemb * size ∧
      rounded 64 LAME_PAGE_ALIGNMENT (size_mul 64 nmemb size) < nmemb * size ∧
      rounded 64 LAME_PAGE_ALIGNMENT (size_mul 64 nmemb size) < size_mul 64 nmemb size ∧
      ∀ (σ : Type) (L : Libc σ) (st : State σ),
        (L.posix_memalign st.heap NULL LAME_PAGE_ALIGNMENT
          (rounded 64 LAME_PAGE_ALIGNMENT (size_mul 64 nmemb size))).1 = 0 →
        (L.posix_memalign st.heap NULL LAME_PAGE_ALIGNMENT
          (rounded 64 LAME_PAGE_ALIGNMENT (size_mul 64 nmemb size))).2.1 ≠ NULL →
        ∃ st', lame_aligned_calloc 64 LAME_PAGE_ALIGNMENT L st nmemb size
            = some ((L.posix_memalign st.heap NULL LAME_PAGE_ALIGNMENT
                (rounded 64 LAME_PAGE_ALIGNMENT (size_mul 64 nmemb size))).2.1, st') ∧
          st'.trace = st.trace ++
            [Call.posix_memalign LAME_PAGE_ALIGNMENT
                (rounded 64 LAME_PAGE_ALIGNMENT (size_mul 64 nmemb size)),
              Call.memset
                (L.posix_memalign st.heap NULL LAME_PAGE_ALIGNMENT
                  (rounded 64 LAME_PAGE_ALIGNMENT (size_mul 64 nmemb size))).2.1
                0 (size_mul 64 nmemb size)]) ∧
    (lame_aligned_calloc 64 LAME_PAGE_ALIGNMENT bumpLibc (initState 0) 3 (SIZE_MAX 64)).map
        (fun r => (r.1, r.2.trace))
      = some (16384,
          [Call.posix_memalign 16384 16384,
            Call.memset 16384 0 18446744073709551613]) :=
  ⟨⟨by decide, by decide⟩,
    calloc_overflow_undersized 64 LAME_PAGE_ALIGNMENT (by decide) (by decide),
    by decide⟩

/-- C8: for an alignment that is a power of two below `2 ^ w`, the rounding of
`lame_aligned_malloc` leaves every positive multiple `m` of the alignment with
`m + align - 1` not wrapping unchanged, so `lame_aligned_malloc(m)` requests
exactly `m` bytes; in particular `align` itself is unchanged; and rounding is
idempotent at every size. -/
theorem rounding_fixes_aligned_sizes (w A k : Nat) (hk : A = 2 ^ k) (hkw : k < w) :
    (∀ m, 0 < m → A ∣ m → m + A - 1 ≤ SIZE_MAX w →
      rounded w A m = m ∧
      ∀ (σ : Type) (L : Libc σ) (st : State σ),
        ∃ p st', lame_aligned_malloc w A L st m = some (p, st') ∧
          st'.trace = st.trace ++ [Call.posix_memalign A m]) ∧
    rounded w A A = A ∧
    (∀ size, rounded w A (rounded w A size) = rounded w A size) := by
  have hA : 0 < A := by rw [hk]; exact Nat.pow_pos (by decide)
  have hAw : A < 2 ^ w := by rw [hk]; exact Nat.pow_lt_pow_right (by decide) hkw
  have hdvd : A ∣ 2 ^ w := by rw [hk]; exact pow_dvd_pow 2 (Nat.le_of_lt hkw)
  have hAA : A + A - 1 < 2 ^ w := by
    obtain ⟨c, hc⟩ := hdvd
    have hc1 : 1 < c := by
      by_contra hle
      have : c = 0 ∨ c = 1 := by omega
      rcases this with h | h <;> rw [h] at hc <;> omega
    have : A * 2 ≤ A * c := Nat.mul_le_mul_left A hc1
    omega
  refine ⟨?_, rounded_of_dvd w A A hA hAw hA dvd_rfl hAA, ?_⟩
  · intro m hpos hm hnw
    have hnw' : m + A - 1 < 2 ^ w := by unfold SIZE_MAX at hnw; omega
    have e := rounded_of_dvd w A m hA hAw hpos hm hnw'
    refine ⟨e, ?_⟩
    intro σ L st
    have hmal := lame_aligned_malloc_eq w A L st m hA hAw
    rw [e] at hmal
    exact ⟨_, _, hmal, rfl⟩
  · intro size
    exact rounded_of_dvd w A (rounded w A size) hA hAw (rounded_pos w A size hA hAw)
      (rounded_dvd w A size hA hAw) (rounded_add_lt_of_dvd_pow w A size hA hAw hdvd)

/-- Instance of C8 on a 64-bit target with the default alignment `2 ^ 14`. -/
theorem rounding_fixes_aligned_sizes_witness :
    (LAME_PAGE_ALIGNMENT = 2 ^ 14 ∧ 14 < 64) ∧
    ((∀ m, 0 < m → LAME_PAGE_ALIGNMENT ∣ m → m + LAME_PAGE_ALIGNMENT - 1 ≤ SIZE_MAX 64 →
        rounded 64 LAME_PAGE_ALIGNMENT m = m ∧
        ∀ (σ : Type) (L : Libc σ) (st : State σ),
          ∃ p st', lame_aligned_malloc 64 LAME_PAGE_ALIGNMENT L st m = some (p, st') ∧
            st'.trace = st.trace ++ [Call.posix_memalign LAME_PAGE_ALIGNMENT m]) ∧
      rounded 64 LAME_PAGE_ALIGNMENT LAME_PAGE_ALIGNMENT = LAME_PAGE_ALIGNMENT ∧
      (∀ size, rounded 64 LAME_PAGE_ALIGNMENT (rounded 64 LAME_PAGE_ALIGNMENT size)
        = rounded 64 LAME_PAGE_ALIGNMENT size)) ∧
    rounded 64 LAME_PAGE_ALIGNMENT 49152 = 49152 ∧
    rounded 64 LAME_PAGE_ALIGNMENT (rounded 64 LAME_PAGE_ALIGNMENT 40000) = 49152 :=
  ⟨⟨by decide, by decide⟩,
    rounding_fixes_aligned_sizes 64 LAME_PAGE_ALIGNMENT 14 (by decide) (by decide),
    by decide, by decide⟩

/-- C2: on a 64-bit target with the default alignment, `lame_aligned_malloc(SIZE_MAX)`
with an allocator that can serve the request returns a non-null pointer after
requesting 16384 bytes, although `ceil(size / align) * align` is `2 ^ 64`:
`size + align - 1` wrapped. -/
theorem malloc_size_max_undersized :
    (lame_aligned_malloc 64 LAME_PAGE_ALIGNMENT bumpLibc (initState 0) (SIZE_MAX 64)).map
        (fun r => (r.1, r.2.trace))
      = some (16384, [Call.posix_memalign 16384 16384]) ∧
    (16384 : Ptr) ≠ NULL ∧
    SIZE_MAX 64 = 18446744073709551615 ∧
    ⌈((SIZE_MAX 64 : ℕ) : ℚ) / (LAME_PAGE_ALIGNMENT : ℚ)⌉₊ * LAME_PAGE_ALIGNMENT = 2 ^ 64 ∧
    16384 < ⌈((SIZE_MAX 64 : ℕ) : ℚ) / (LAME_PAGE_ALIGNMENT : ℚ)⌉₊ * LAME_PAGE_ALIGNMENT := by
  have e := ceil_mul_eq_natCeil LAME_PAGE_ALIGNMENT (SIZE_MAX 64) (by decide)
  refine ⟨by decide, by decide, by decide, ?_, ?_⟩
  · rw [← e]; decide
  · rw [← e]; decide

/-- C4: on a 64-bit target with the default alignment,
`lame_aligned_calloc(1, SIZE_MAX)` (the product does not overflow) with an
allocator that can serve the request asks `posix_memalign` for 16384 bytes and
then calls `memset` with length `SIZE_MAX`: the byte just past the requested
block, at address `16384 + 16384`, is overwritten. -/
theorem calloc_size_max_zeroes_past_block :
    1 * SIZE_MAX 64 ≤ SIZE_MAX 64 ∧
    (lame_aligned_calloc 64 LAME_PAGE_ALIGNMENT bumpLibc (initState 0) 1 (SIZE_MAX 64)).map
        (fun r => (r.1, r.2.trace, r.2.mem 32768))
      = some (16384,
          [Call.posix_memalign 16384 16384, Call.memset 16384 0 18446744073709551615],
          0) ∧
    (initState 0 : State Nat).mem 32768 = 170 ∧
    16384 < 18446744073709551615 := by
  refine ⟨by decide, by decide, by decide, by decide⟩

end LamePlatform
